import Mathlib

/-!
Shallow embedding of the zeonica trace-analysis scripts.

Each namespace embeds one source file of the repository:
* `LogParser`   — `log_parser.py` (`EnhancedLogParser`): per-link FIFO
  tracking (`_update_pending_data`), full replay
  (`_get_pending_data_at_timestamp`) and the ingestion loop (`parse_log`).
* `ExportCsv`   — `analysis_tools/export_cgra_csv.py`
  (`CGRAStateExporter.export_core_activity_csv`): per-(PE, cycle) status
  merge.
* `TraceTool`   — `analysis_tools/generate_interactive_html_with_trace.py`
  (`trace_backward`): backward tracing over the dataflow graph.
* `TokenTrace`  — `analysis_tools/generate_interactive_html.py`
  (`build_token_events`): per-token hop list sorted by time.
* `Histogram`   — `test/histogram/analyze_all.py` (`generate_pe_heatmap`,
  `print_summary`): per-PE utilization from deduplicated cycle sets.
-/

namespace LogParser

/-- Kind tag of a parsed device position, mirroring the first component of
the tuples returned by `EnhancedLogParser._parse_device_position`
(`'tile'` or `'driver'`). -/
inductive PosKind where
  | tile
  | driver
deriving DecidableEq, Repr

/-- A parsed device position: the tuple `(kind, row, col, port)` returned by
`_parse_device_position`.  Driver rows/cols may be `-1` or the grid size,
hence `Int`. -/
structure Position where
  kind : PosKind
  row : Int
  col : Int
  port : String
deriving DecidableEq, Repr

/-- A directed link `(source, target)`, the `link_key` of
`_update_pending_data`. -/
abbrev LinkKey := Position × Position

/-- The four dataflow behaviors accepted by `parse_log`:
`'Recv' | 'Send' | 'FeedIn' | 'Collect'`. -/
inductive OpType where
  | Send
  | Recv
  | FeedIn
  | Collect
deriving DecidableEq, Repr

/-- One dataflow operation as stored into `self.timestamps` by `parse_log`:
the timestamp (already rounded to an integer cycle), the behavior, the
payload string, and the source/destination as parsed by
`_parse_device_position` (`none` when the regex does not match). -/
structure Operation where
  timestamp : Nat
  behavior : OpType
  data : String
  src : Option Position
  dst : Option Position
deriving DecidableEq, Repr

/-- One entry of `self.data_flow_history` as appended by
`_update_pending_data` (`flow_event`): timestamp, operation type, payload
value, and both resolved endpoints. -/
structure FlowEvent where
  timestamp : Nat
  operation_type : OpType
  data_value : String
  source : Position
  target : Position
deriving DecidableEq, Repr

/-- The `link_key` field of a `flow_event`: `(source, target)`. -/
def FlowEvent.link_key (e : FlowEvent) : LinkKey := (e.source, e.target)

/-- Whether an operation type pushes onto the pending queue
(`Send`/`FeedIn`). -/
def OpType.isPush : OpType → Bool
  | .Send => true
  | .FeedIn => true
  | _ => false

/-- Whether an operation type pops from the pending queue
(`Recv`/`Collect`). -/
def OpType.isPop : OpType → Bool
  | .Recv => true
  | .Collect => true
  | _ => false

/-- The FIFO-tracking portion of the parser state: the
`pending_data` map (a `defaultdict(list)`, modelled as a total function
with default `[]`) and the `data_flow_history` list. -/
structure ParserFifo where
  pending_data : LinkKey → List String
  data_flow_history : List FlowEvent

/-- `_update_pending_data`, step 1: build the flow event, or `None` when
either endpoint failed to parse (the function's early `return`). -/
def toFlowEvent (op : Operation) : Option FlowEvent :=
  match op.src, op.dst with
  | some s, some t => some ⟨op.timestamp, op.behavior, op.data, s, t⟩
  | _, _ => none

/-- The push/pop action of `_update_pending_data` (and identically of
`_get_pending_data_at_timestamp`) on the pending map: `Send`/`FeedIn`
append the payload at the link key; `Recv`/`Collect` remove the oldest
entry (`pop(0)`) only when the queue is non-empty, otherwise they leave
the map untouched. -/
def pushPop (m : LinkKey → List String) (e : FlowEvent) : LinkKey → List String :=
  match e.operation_type with
  | .Send | .FeedIn => fun k => if k = e.link_key then m k ++ [e.data_value] else m k
  | .Recv | .Collect =>
      if m e.link_key = [] then m
      else fun k => if k = e.link_key then (m k).tail else m k

/-- `EnhancedLogParser._update_pending_data`: resolve both endpoints
(early return when one is missing), append the flow event to
`data_flow_history`, then apply the push/pop action to `pending_data`. -/
def updatePendingData (s : ParserFifo) (op : Operation) : ParserFifo :=
  match toFlowEvent op with
  | none => s
  | some e =>
      { pending_data := pushPop s.pending_data e
        data_flow_history := s.data_flow_history ++ [e] }

/-- Ingestion of a list of operations starting from a given state, one
`_update_pending_data` call per operation, in arrival order. -/
def ingestFrom (s : ParserFifo) (ops : List Operation) : ParserFifo :=
  ops.foldl updatePendingData s

/-- The parser's initial FIFO state: empty pending map, empty history. -/
def initFifo : ParserFifo := ⟨fun _ => [], []⟩

/-- Ingestion of a full operation list from the initial state. -/
def ingestFlow (ops : List Operation) : ParserFifo := ingestFrom initFifo ops

/-- One replay step of `_get_pending_data_at_timestamp`: events with
`timestamp <= ts` are applied, later events are skipped. -/
def replayStep (ts : Nat) (m : LinkKey → List String) (e : FlowEvent) :
    LinkKey → List String :=
  if e.timestamp ≤ ts then pushPop m e else m

/-- `EnhancedLogParser._get_pending_data_at_timestamp`: replay the whole
`data_flow_history` in arrival order, applying only events with
`timestamp <= ts`, starting from an empty map. -/
def getPendingDataAtTimestamp (h : List FlowEvent) (ts : Nat) :
    LinkKey → List String :=
  h.foldl (replayStep ts) (fun _ => [])

/-- Number of push events (`Send`/`FeedIn`) for link `L` with timestamp
`≤ C` in a history. -/
def pushCount (h : List FlowEvent) (C : Nat) (L : LinkKey) : Nat :=
  h.countP (fun e => decide (e.timestamp ≤ C) && e.operation_type.isPush && decide (e.link_key = L))

/-- Number of pop events (`Recv`/`Collect`) for link `L` with timestamp
`≤ C` that actually remove an element during the replay of
`_get_pending_data_at_timestamp` — pops arriving while the queue is empty
(skipped faulty pops) are not counted.  The map argument carries the
replay state. -/
def effPopsFrom (C : Nat) (L : LinkKey) :
    List FlowEvent → (LinkKey → List String) → Nat
  | [], _ => 0
  | e :: rest, m =>
      (if e.timestamp ≤ C ∧ e.link_key = L ∧ e.operation_type.isPop = true ∧ m L ≠ [] then 1 else 0)
        + effPopsFrom C L rest (replayStep C m e)

/-- Effective pop count over a history replayed from the empty map. -/
def effPopCount (h : List FlowEvent) (C : Nat) (L : LinkKey) : Nat :=
  effPopsFrom C L h (fun _ => [])

/-- One raw log line, after JSON decoding and field extraction by
`parse_log`: a `DataFlow` line with one of the four behaviors (endpoints
already run through `_parse_device_position`), an `Inst` line, or a line
that is skipped (invalid JSON, other `msg` values, or other behaviors). -/
inductive Record where
  | dataflow (timestamp : Nat) (behavior : OpType) (data : String)
      (src dst : Option Position)
  | inst (timestamp : Nat) (x y : Int) (opcode : String)
  | skipped
deriving DecidableEq, Repr

/-- The parser state built by `parse_log`: the by-cycle operation index
`self.timestamps`, the instruction index `self.instructions`
(keyed by timestamp and position, last write wins), and the FIFO-tracking
state. -/
structure ParserState where
  timestamps : Nat → List Operation
  instructions : Nat → (Int × Int) → Option String
  fifo : ParserFifo

/-- `parse_log`, one line: `DataFlow` lines append the operation to
`self.timestamps[timestamp]` and update the FIFO state; `Inst` lines with
a non-empty opcode store the instruction; all other lines are skipped. -/
def parseLine (s : ParserState) (r : Record) : ParserState :=
  match r with
  | .dataflow ts b d src dst =>
      let o : Operation := ⟨ts, b, d, src, dst⟩
      { s with
          timestamps := fun t => if t = ts then s.timestamps t ++ [o] else s.timestamps t
          fifo := updatePendingData s.fifo o }
  | .inst ts x y opc =>
      if opc = "" then s
      else { s with
              instructions := fun t p =>
                if t = ts ∧ p = (x, y) then some opc else s.instructions t p }
  | .skipped => s

/-- The empty parser state. -/
def initParserState : ParserState := ⟨fun _ => [], fun _ _ => none, initFifo⟩

/-- `EnhancedLogParser.parse_log`: one linear pass over the lines. -/
def parseLog (rs : List Record) : ParserState :=
  rs.foldl parseLine initParserState

/-- The West boundary driver of row 0, as parsed from
`Driver.DeviceWest[0]`: `('driver', 0, -1, 'East')`. -/
def westDriver0 : Position := ⟨.driver, 0, -1, "East"⟩

/-- The West port of tile (0,0), as parsed from
`Device.Tile[0][0].Core.West`: `('tile', 0, 0, 'West')`. -/
def tile00West : Position := ⟨.tile, 0, 0, "West"⟩

/-- The directed link from the West boundary driver to tile (0,0). -/
def scLink : LinkKey := (westDriver0, tile00West)

/-- Scenario C: a pop (`Recv`) event at cycle 0 on `scLink` with no prior
push. -/
def scPop : Operation := ⟨0, .Recv, "7", some westDriver0, some tile00West⟩

/-- A subsequent push (`FeedIn`) event at cycle 1 on `scLink`. -/
def scPush : Operation := ⟨1, .FeedIn, "9", some westDriver0, some tile00West⟩

end LogParser

namespace ExportCsv

/-- One parsed log entry as seen by `CGRAStateExporter`: the integer
`Time`, the `msg` kind string, the PE coordinates, and the kind-specific
fields (with the source's `.get(..., default)` defaults already applied). -/
structure Event where
  time : Nat
  msg : String
  x : Int
  y : Int
  behavior : String
  direction : String
  data : String
  opcode : String
deriving DecidableEq, Repr

/-- The three PE statuses written to the `Status` CSV column:
`'IDLE'`, `'EXEC'`, `'BLOCKED'`. -/
inductive Status where
  | IDLE
  | EXEC
  | BLOCKED
deriving DecidableEq, Repr

/-- One CSV row fragment for a single PE at a single cycle: the seven
per-PE columns written by `export_core_activity_csv`. -/
structure Row where
  status : Status
  opcode : String
  sendDir : String
  sendData : String
  recvDir : String
  recvData : String
  backp : String
deriving DecidableEq, Repr

/-- The initial per-PE row values (`'IDLE'` and `'-'` placeholders). -/
def row0 : Row := ⟨.IDLE, "-", "-", "-", "-", "-", "-"⟩

/-- `self.events_by_cycle[cycle][kind]`: the events of one `msg` kind at
one cycle, in arrival order. -/
def kindAt (es : List Event) (c : Nat) (k : String) : List Event :=
  es.filter (fun e => decide (e.time = c) && decide (e.msg = k))

/-- The `InstExec` loop body: a matching event sets `status = 'EXEC'` and
records the opcode. -/
def stepInstExec (x y : Int) (r : Row) (e : Event) : Row :=
  if e.x = x ∧ e.y = y then { r with status := .EXEC, opcode := e.opcode } else r

/-- The `DataFlow` send loop body: a matching `Send` event records the
direction and payload (status untouched). -/
def stepSend (x y : Int) (r : Row) (e : Event) : Row :=
  if e.x = x ∧ e.y = y ∧ e.behavior = "Send" then
    { r with sendDir := e.direction, sendData := e.data }
  else r

/-- The `DataFlow` receive loop body: a matching `Receive` event records
the direction and payload (status untouched). -/
def stepRecv (x y : Int) (r : Row) (e : Event) : Row :=
  if e.x = x ∧ e.y = y ∧ e.behavior = "Receive" then
    { r with recvDir := e.direction, recvData := e.data }
  else r

/-- The backpressure loop body: a matching `Backpressure` or
`InstGroup_Blocked` event sets `backp = 'YES'` and `status = 'BLOCKED'`. -/
def stepBp (x y : Int) (r : Row) (e : Event) : Row :=
  if e.x = x ∧ e.y = y then { r with backp := "YES", status := .BLOCKED } else r

/-- The per-PE body of `export_core_activity_csv` for one cycle: process
the `InstExec` events, then `DataFlow` sends, then `DataFlow` receives,
then the concatenated `Backpressure` and `InstGroup_Blocked` events, in
arrival order within each kind. -/
def peRow (es : List Event) (c : Nat) (x y : Int) : Row :=
  let r1 := (kindAt es c "InstExec").foldl (stepInstExec x y) row0
  let r2 := (kindAt es c "DataFlow").foldl (stepSend x y) r1
  let r3 := (kindAt es c "DataFlow").foldl (stepRecv x y) r2
  (kindAt es c "Backpressure" ++ kindAt es c "InstGroup_Blocked").foldl (stepBp x y) r3

/-- The reconstructed status of PE `(x, y)` at cycle `c` (the `Status`
CSV column). -/
def statusOf (es : List Event) (c : Nat) (x : Int) (y : Int) : Status :=
  (peRow es c x y).status

/-- Whether an event carries the coordinates of the PE under
reconstruction. -/
def matchesPE (x y : Int) (e : Event) : Bool :=
  decide (e.x = x) && decide (e.y = y)

/-- Scenario A, first event: a DataFlow Send at cycle 0 on PE(0,0)
towards East. -/
def scnSend : Event := ⟨0, "DataFlow", 0, 0, "Send", "East", "1", "?"⟩

/-- Scenario A, second event: a DataFlow Receive at cycle 0 on PE(1,0)
from West. -/
def scnRecv : Event := ⟨0, "DataFlow", 1, 0, "Receive", "West", "1", "?"⟩

/-- Scenario A, third event: a Backpressure event at cycle 1 on PE(1,0). -/
def scnBp : Event := ⟨1, "Backpressure", 1, 0, "", "", "", "?"⟩

/-- The three-event input of Scenario A. -/
def scenarioA : List Event := [scnSend, scnRecv, scnBp]

/-- A single DataFlow Send event at cycle 0 on PE(0,0), with no other
event at that cycle. -/
def loneDataFlow : Event := ⟨0, "DataFlow", 0, 0, "Send", "East", "5", "?"⟩

end ExportCsv

namespace TraceTool

/-- The loop of `trace_backward`, structurally bounded by the remaining
depth budget (`while depth < max_depth`).  The path is carried with the
current node at its head, so the visited set of the source is exactly the
set of nodes on the path.  Each iteration reads the first-recorded
incoming edge of the current node (`incoming[0]`), stops when there is
none or its origin was already visited, and otherwise prepends the origin
and continues. -/
def traceLoop {α : Type} [DecidableEq α] (g : α → List α) :
    Nat → α → List α → List α
  | 0, cur, tl => cur :: tl
  | fuel + 1, cur, tl =>
      match g cur with
      | [] => cur :: tl
      | prev :: _ =>
          if prev ∈ cur :: tl then cur :: tl
          else traceLoop g fuel prev (cur :: tl)

/-- `trace_backward(graph, sink_node, max_depth=50)`: backward trace from
`sink` along first-recorded incoming edges, returning the path from
source to sink. -/
def traceBackward {α : Type} [DecidableEq α] (g : α → List α) (sink : α)
    (maxDepth : Nat := 50) : List α :=
  traceLoop g maxDepth sink []

/-- A two-node acyclic incoming-edge map: node 0 has the single incoming
edge from node 1; node 1 has none. -/
def chainGraph : Nat → List Nat := fun n => if n = 0 then [1] else []

/-- A two-node cyclic incoming-edge map: node 0 has the incoming edge
from node 1 and node 1 the incoming edge from node 0. -/
def cycleGraph : Nat → List Nat :=
  fun n => if n = 0 then [1] else if n = 1 then [0] else []

end TraceTool

namespace TokenTrace

/-- One token hop accumulated by `build_token_events`: the integer time,
the token id, the PE coordinates, and the behavior/direction/payload
fields. -/
structure TokenEvent where
  time : Nat
  tokenId : Nat
  x : Int
  y : Int
  behavior : String
  direction : String
  data : String
deriving DecidableEq, Repr

/-- Ordering of token hops by their `time` field (the sort key of
`token_events[token_id].sort(key=lambda e: e['time'])`). -/
def timeLE (a b : TokenEvent) : Prop := a.time ≤ b.time

instance : DecidableRel timeLE := fun a b => Nat.decLe a.time b.time

instance : IsTotal TokenEvent timeLE := ⟨fun a b => Nat.le_total a.time b.time⟩

instance : IsTrans TokenEvent timeLE := ⟨fun _ _ _ h h' => Nat.le_trans h h'⟩

/-- The hops accumulated for one token id, in input arrival order
(`token_events[token_id]` before the final sort). -/
def tokenEvents (evs : List TokenEvent) (t : Nat) : List TokenEvent :=
  evs.filter (fun e => decide (e.tokenId = t))

/-- `token_path(token_id)`: the accumulated hops of one token id, stably
sorted by time (the final `sort` of `build_token_events`). -/
def tokenPath (evs : List TokenEvent) (t : Nat) : List TokenEvent :=
  List.insertionSort timeLE (tokenEvents evs t)

end TokenTrace

namespace Histogram

/-- One parsed log entry as seen by `analyze_logs` in `analyze_all.py`:
integer time, `msg` kind, behavior, and PE coordinates (defaulting to
`-1` when absent). -/
structure Entry where
  time : Nat
  msg : String
  behavior : String
  x : Int
  y : Int
deriving DecidableEq, Repr

/-- Whether an entry appends to `pe['exec_events']` for the PE `pe`:
coordinates present (`x >= 0 and y >= 0`) and equal to `pe`, and the
entry is an execution (`Inst_Exec`/`PHI_Exec`/`GPRED_Exec`/`NOT_Exec`),
a `Memory` read/write, or a `DataFlow` `Send`/`Recv`. -/
def isExecEvent (pe : Int × Int) (e : Entry) : Prop :=
  0 ≤ e.x ∧ 0 ≤ e.y ∧ e.x = pe.1 ∧ e.y = pe.2 ∧
    (e.msg = "Inst_Exec" ∨ e.msg = "PHI_Exec" ∨ e.msg = "GPRED_Exec" ∨ e.msg = "NOT_Exec" ∨
      (e.msg = "Memory" ∧ (e.behavior = "WriteMemory" ∨ e.behavior = "ReadMemory")) ∨
      (e.msg = "DataFlow" ∧ (e.behavior = "Send" ∨ e.behavior = "Recv")))

instance (pe : Int × Int) (e : Entry) : Decidable (isExecEvent pe e) := by
  unfold isExecEvent; infer_instance

/-- `pe['exec_events']` for one PE: the times of its execution events, in
arrival order, with multiplicity. -/
def execEvents (es : List Entry) (pe : Int × Int) : List Nat :=
  (es.filter (fun e => decide (isExecEvent pe e))).map (fun e => e.time)

/-- `len(set(pe['exec_events']))`: the deduplicated active-cycle count
used by both `generate_pe_heatmap` and `print_summary`. -/
def activeCycles (es : List Entry) (pe : Int × Int) : Nat :=
  (execEvents es pe).dedup.length

/-- The utilization percentage computed by `generate_pe_heatmap` and
`print_summary`:
`min((active_cycles / total_cycles * 100) if total_cycles > 0 else 0, 100.0)`. -/
def utilization (es : List Entry) (pe : Int × Int) (total : Nat) : ℚ :=
  min (if 0 < total then (activeCycles es pe : ℚ) / total * 100 else 0) 100

/-- The set of distinct cycles at which `pe` has at least one execution
event — "distinct cycles containing ≥ 1 Execution/DataFlow/Memory event",
to be compared with the deduplicated event-time list kept by the code. -/
def distinctActiveCycles (es : List Entry) (pe : Int × Int) : Finset Nat :=
  (es.map (fun e => e.time)).toFinset.filter
    (fun c => ∃ e ∈ es, isExecEvent pe e ∧ e.time = c)

end Histogram

open LogParser ExportCsv TraceTool TokenTrace Histogram

/-- Invariant of the `trace_backward` loop: the result extends the carried
path on the left, its length is bounded by the remaining depth budget, and
when the loop stops, the head of the result either has no incoming edge,
or the depth budget was exhausted, or the first-recorded incoming origin
of the head is already on the path (cycle guard). -/
theorem traceLoop_spec {α : Type} [DecidableEq α] (g : α → List α) :
    ∀ (fuel : Nat) (cur : α) (tl : List α),
      (∃ pre, traceLoop g fuel cur tl = pre ++ cur :: tl) ∧
      (traceLoop g fuel cur tl).length ≤ fuel + tl.length + 1 ∧
      (∀ h t, traceLoop g fuel cur tl = h :: t →
        g h = [] ∨ (traceLoop g fuel cur tl).length = fuel + tl.length + 1 ∨
          ∃ pr l, g h = pr :: l ∧ pr ∈ traceLoop g fuel cur tl) := by
  intro fuel
  induction fuel with
  | zero =>
      intro cur tl
      refine ⟨⟨[], rfl⟩, by simp [traceLoop], ?_⟩
      intro h t hres
      right; left
      simp [traceLoop] at hres ⊢
  | succ n ih =>
      intro cur tl
      show (∃ pre, traceLoop g (n + 1) cur tl = pre ++ cur :: tl) ∧ _
      cases hg : g cur with
      | nil =>
          have hres : traceLoop g (n + 1) cur tl = cur :: tl := by
            simp [traceLoop, hg]
          refine ⟨⟨[], hres⟩, by simp [hres], ?_⟩
          intro h t ht
          rw [hres] at ht
          have hcur : h = cur := ((List.cons.injEq ..).mp ht).1.symm
          exact Or.inl (by rw [hcur]; exact hg)
      | cons prev l =>
          by_cases hmem : prev ∈ cur :: tl
          · have hres : traceLoop g (n + 1) cur tl = cur :: tl := by
              simp [traceLoop, hg, hmem]
            refine ⟨⟨[], hres⟩, by simp [hres], ?_⟩
            intro h t ht
            right; right
            have hcur : h = cur := by
              rw [hres] at ht
              exact ((List.cons.injEq ..).mp ht).1.symm
            exact ⟨prev, l, hcur ▸ hg, by rw [hres]; exact hmem⟩
          · have hres : traceLoop g (n + 1) cur tl = traceLoop g n prev (cur :: tl) := by
              simp [traceLoop, hg, hmem]
            obtain ⟨⟨pre, hpre⟩, hlen, hstop⟩ := ih prev (cur :: tl)
            refine ⟨⟨pre ++ [prev], by rw [hres, hpre]; simp⟩, ?_, ?_⟩
            · rw [hres]
              simpa using Nat.le_trans hlen (by simp; omega)
            · intro h t ht
              rcases hstop h t (hres ▸ ht) with h1 | h2 | h3
              · exact Or.inl h1
              · right; left
                rw [hres, h2]
                simp
                omega
              · right; right
                rw [hres]
                exact h3

/-- C5 (amended): `trace_backward(sink, max_depth)` terminates for every
incoming-edge map and every sink: it repeatedly follows the first-recorded
incoming edge, prepending each origin, the returned path is non-empty,
ends at the sink, has at most `max_depth + 1` nodes, and when it stops its
head either has no incoming edge, or the depth budget is exhausted
(`length = max_depth + 1`), or the head's first-recorded incoming origin
is already on the path (cycle guard).  No truncation flag is returned —
the result is the bare path (see the counterexample). -/
theorem trace_backward_terminates {α : Type} [DecidableEq α] (g : α → List α)
    (sink : α) (maxDepth : Nat) :
    traceBackward g sink maxDepth ≠ [] ∧
    (traceBackward g sink maxDepth).getLast? = some sink ∧
    (traceBackward g sink maxDepth).length ≤ maxDepth + 1 ∧
    (∀ h t, traceBackward g sink maxDepth = h :: t →
      g h = [] ∨ (traceBackward g sink maxDepth).length = maxDepth + 1 ∨
        ∃ pr l, g h = pr :: l ∧ pr ∈ traceBackward g sink maxDepth) := by
  obtain ⟨⟨pre, hpre⟩, hlen, hstop⟩ := traceLoop_spec g maxDepth sink []
  have hne : traceBackward g sink maxDepth ≠ [] := by
    rw [traceBackward, hpre]
    simp
  refine ⟨hne, ?_, by simpa [traceBackward] using hlen, ?_⟩
  · rw [traceBackward, hpre]
    exact List.getLast?_concat pre
  · intro h t ht
    exact hstop h t ht

/-- C5 witness: on the two-node cyclic graph, the trace from sink `0`
stops via the cycle guard with path `[1, 0]`, and the stop-condition
disjunction of the theorem holds there. -/
theorem trace_backward_terminates_witness :
    traceBackward cycleGraph 0 50 = [1, 0] ∧
    (cycleGraph 1 = [] ∨ (traceBackward cycleGraph 0 50).length = 50 + 1 ∨
      ∃ pr l, cycleGraph 1 = pr :: l ∧ pr ∈ traceBackward cycleGraph 0 50) :=
  ⟨by decide, (trace_backward_terminates cycleGraph 0 50).2.2.2 1 [0] (by decide)⟩

/-- C5 counterexample: the claim says a trace stopped by the cycle guard
returns a truncated flag.  `trace_backward` returns a bare list of nodes:
on the acyclic graph (`1 → 0`, node `1` without incoming edge) the trace
from `0` stops naturally, on the cyclic graph (`1 → 0`, `0 → 1`) the
trace from `0` stops via the cycle guard, and both return the identical
value `[1, 0]` — no component of the result marks truncation, so no
truncated flag is returned. -/
theorem trace_backward_no_truncated_flag :
    traceBackward chainGraph 0 50 = traceBackward cycleGraph 0 50 ∧
    traceBackward cycleGraph 0 50 = [1, 0] ∧
    chainGraph 1 = [] ∧ cycleGraph 1 = [0] := by
  decide

/-- C7: for every sink node with no recorded incoming edge,
`trace_backward(sink)` returns exactly the one-element path `[sink]`,
for every depth budget. -/
theorem trace_backward_no_incoming {α : Type} [DecidableEq α]
    (g : α → List α) (sink : α) (maxDepth : Nat) (h : g sink = []) :
    traceBackward g sink maxDepth = [sink] := by
  cases maxDepth with
  | zero => rfl
  | succ n => simp [traceBackward, traceLoop, h]

/-- C7 witness: node `1` of the chain graph has no incoming edge and its
backward trace is `[1]`. -/
theorem trace_backward_no_incoming_witness :
    chainGraph 1 = [] ∧ traceBackward chainGraph 1 50 = [1] :=
  ⟨by decide, trace_backward_no_incoming chainGraph 1 50 (by decide)⟩

/-- C1 (amended): a pop (`Recv`/`Collect`) event with resolvable endpoints
arriving on a link whose pending queue is empty leaves the whole pending
map unchanged (the pop is skipped), appends the event to the generic
`data_flow_history` exactly like every other data-flow event, and
ingestion of all subsequent events continues from that state unaffected.
No DataIntegrityError record and no fault counter is maintained (see the
counterexample). -/
theorem empty_pop_skipped (s : ParserFifo) (op : Operation) (ps pt : Position)
    (hs : op.src = some ps) (ht : op.dst = some pt)
    (hpop : op.behavior.isPop = true)
    (hempty : s.pending_data (ps, pt) = []) :
    (updatePendingData s op).pending_data = s.pending_data ∧
    (updatePendingData s op).data_flow_history =
      s.data_flow_history ++ [⟨op.timestamp, op.behavior, op.data, ps, pt⟩] ∧
    ∀ rest, ingestFrom s (op :: rest) = ingestFrom (updatePendingData s op) rest := by
  obtain ⟨ts, b, d, src, dst⟩ := op
  simp only at hs ht hpop
  subst hs; subst ht
  cases b with
  | Send => simp [OpType.isPop] at hpop
  | FeedIn => simp [OpType.isPop] at hpop
  | Recv =>
      refine ⟨?_, rfl, fun rest => rfl⟩
      simp [updatePendingData, toFlowEvent, pushPop, FlowEvent.link_key, hempty]
  | Collect =>
      refine ⟨?_, rfl, fun rest => rfl⟩
      simp [updatePendingData, toFlowEvent, pushPop, FlowEvent.link_key, hempty]

/-- C1 witness: Scenario C — the concrete pop at cycle 0 on `scLink` with
no prior push satisfies the hypotheses and leaves the pending map
unchanged. -/
theorem empty_pop_skipped_witness :
    scPop.src = some westDriver0 ∧ scPop.dst = some tile00West ∧
    scPop.behavior.isPop = true ∧
    initFifo.pending_data (westDriver0, tile00West) = [] ∧
    (updatePendingData initFifo scPop).pending_data = initFifo.pending_data :=
  ⟨rfl, rfl, rfl, rfl,
    (empty_pop_skipped initFifo scPop westDriver0 tile00West rfl rfl rfl rfl).1⟩

/-- C1 counterexample: the claim says the empty-queue pop is recorded as a
DataIntegrityError with cycle, link key and a running fault counter.  The
complete FIFO-tracking state of the parser after ingesting Scenario C
(one faulty pop at cycle 0 on `scLink`) is exhibited here: it consists of
the unchanged (everywhere-empty) pending map and a single generic
`data_flow_history` entry — the same entry every successfully-processed
event gets.  The parser state has no other component, so no
DataIntegrityError record and no fault counter exists; subsequent events
(the cycle-1 push) are nevertheless ingested unaffected. -/
theorem pop_on_empty_not_recorded :
    (ingestFlow [scPop]).pending_data = initFifo.pending_data ∧
    (ingestFlow [scPop]).data_flow_history =
      [⟨0, .Recv, "7", westDriver0, tile00West⟩] ∧
    (ingestFlow [scPop, scPush]).pending_data scLink = ["9"] :=
  ⟨rfl, rfl, rfl⟩

/-- Length accounting for one replay step: the queue at `L` grows by one
on an applied push for `L`, shrinks by one on an applied non-skipped pop
for `L`, and is unchanged otherwise. -/
theorem replayStep_length (C : Nat) (L : LinkKey) (m : LinkKey → List String)
    (e : FlowEvent) :
    (replayStep C m e L).length
        + (if e.timestamp ≤ C ∧ e.link_key = L ∧ e.operation_type.isPop = true ∧ m L ≠ []
            then 1 else 0)
      = (m L).length
        + (if decide (e.timestamp ≤ C) && e.operation_type.isPush && decide (e.link_key = L)
            then 1 else 0) := by
  by_cases hts : e.timestamp ≤ C
  · by_cases hL : e.link_key = L
    · subst hL
      cases htype : e.operation_type with
      | Send => simp [replayStep, pushPop, hts, htype, OpType.isPush, OpType.isPop]
      | FeedIn => simp [replayStep, pushPop, hts, htype, OpType.isPush, OpType.isPop]
      | Recv =>
          by_cases hemp : m e.link_key = []
          · simp [replayStep, pushPop, hts, htype, OpType.isPush, OpType.isPop, hemp]
          · have hpos : 0 < (m e.link_key).length := List.length_pos.mpr hemp
            simp [replayStep, pushPop, hts, htype, OpType.isPush, OpType.isPop, hemp]
            omega
      | Collect =>
          by_cases hemp : m e.link_key = []
          · simp [replayStep, pushPop, hts, htype, OpType.isPush, OpType.isPop, hemp]
          · have hpos : 0 < (m e.link_key).length := List.length_pos.mpr hemp
            simp [replayStep, pushPop, hts, htype, OpType.isPush, OpType.isPop, hemp]
            omega
    · cases htype : e.operation_type with
      | Send =>
          simp [replayStep, pushPop, hts, htype, OpType.isPush, OpType.isPop, hL, Ne.symm hL]
      | FeedIn =>
          simp [replayStep, pushPop, hts, htype, OpType.isPush, OpType.isPop, hL, Ne.symm hL]
      | Recv =>
          by_cases hemp : m e.link_key = [] <;>
            simp [replayStep, pushPop, hts, htype, OpType.isPush, OpType.isPop, hL,
              Ne.symm hL, hemp]
      | Collect =>
          by_cases hemp : m e.link_key = [] <;>
            simp [replayStep, pushPop, hts, htype, OpType.isPush, OpType.isPop, hL,
              Ne.symm hL, hemp]
  · simp [replayStep, hts]

/-- Replay-length invariant: starting from any pending map, the queue
length at `L` after replaying a history plus the effective pops executed
for `L` equals the starting length plus the pushes applied for `L`. -/
theorem replay_length_invariant (C : Nat) (L : LinkKey) :
    ∀ (h : List FlowEvent) (m : LinkKey → List String),
      (h.foldl (replayStep C) m L).length + effPopsFrom C L h m
        = (m L).length + pushCount h C L := by
  intro h
  induction h with
  | nil => intro m; simp [effPopsFrom, pushCount]
  | cons e rest ih =>
      intro m
      rw [List.foldl_cons, effPopsFrom, pushCount, List.countP_cons]
      have hstep := replayStep_length C L m e
      have hrest := ih (replayStep C m e)
      rw [pushCount] at hrest
      omega

/-- C3: for every link key `L` and cycle `C`, the length of the pending
queue returned by `_get_pending_data_at_timestamp` at `C` equals the
number of push (`Send`/`FeedIn`) events for `L` with cycle `≤ C` minus
the number of pop (`Recv`/`Collect`) events for `L` with cycle `≤ C` that
were actually executed — pops arriving while the queue was empty (skipped
faulty pops) are not counted, and the executed pops never exceed the
pushes. -/
theorem fifo_length_property (h : List FlowEvent) (C : Nat) (L : LinkKey) :
    (getPendingDataAtTimestamp h C L).length = pushCount h C L - effPopCount h C L ∧
    effPopCount h C L ≤ pushCount h C L := by
  have hinv := replay_length_invariant C L h (fun _ => [])
  simp only [List.length_nil] at hinv
  rw [getPendingDataAtTimestamp, effPopCount]
  constructor <;> omega

/-- Ingestion appends to the history exactly the flow events of the
operations whose endpoints both resolved, in arrival order. -/
theorem ingestFrom_history (ops : List Operation) :
    ∀ s : ParserFifo,
      (ingestFrom s ops).data_flow_history
        = s.data_flow_history ++ ops.filterMap toFlowEvent := by
  induction ops with
  | nil => intro s; simp [ingestFrom]
  | cons op rest ih =>
      intro s
      have hstep := ih (updatePendingData s op)
      rw [ingestFrom] at hstep ⊢
      rw [List.foldl_cons, List.filterMap_cons, hstep]
      cases hfe : toFlowEvent op with
      | none => simp [updatePendingData, hfe]
      | some e => simp [updatePendingData, hfe]

/-- The incrementally maintained pending map is the fold of the push/pop
action over exactly the resolved flow events. -/
theorem ingestFrom_pending (ops : List Operation) :
    ∀ s : ParserFifo,
      (ingestFrom s ops).pending_data
        = (ops.filterMap toFlowEvent).foldl pushPop s.pending_data := by
  induction ops with
  | nil => intro s; simp [ingestFrom]
  | cons op rest ih =>
      intro s
      have hstep := ih (updatePendingData s op)
      rw [ingestFrom] at hstep ⊢
      rw [List.foldl_cons, List.filterMap_cons, hstep]
      cases hfe : toFlowEvent op with
      | none => simp [updatePendingData, hfe]
      | some e => simp [updatePendingData, hfe]

/-- When every event of a history is at or before the query timestamp,
the replay filter of `_get_pending_data_at_timestamp` is inactive. -/
theorem replay_filter_inactive (ts : Nat) :
    ∀ (h : List FlowEvent) (m : LinkKey → List String),
      (∀ e ∈ h, e.timestamp ≤ ts) →
      h.foldl (replayStep ts) m = h.foldl pushPop m := by
  intro h
  induction h with
  | nil => intro m _; rfl
  | cons e rest ih =>
      intro m hall
      rw [List.foldl_cons, List.foldl_cons, replayStep,
        if_pos (hall e (List.mem_cons_self e rest))]
      exact ih (pushPop m e) (fun e' he' => hall e' (List.mem_cons_of_mem e he'))

/-- C10: for every operation sequence and every timestamp `T` at or after
all event timestamps, the replay-based FIFO reconstruction
(`_get_pending_data_at_timestamp` over the recorded `data_flow_history`)
agrees, on every link key, with the incrementally maintained
`pending_data` map produced by `_update_pending_data` during parsing. -/
theorem incremental_refines_replay (ops : List Operation) (T : Nat)
    (hT : ∀ op ∈ ops, op.timestamp ≤ T) (L : LinkKey) :
    getPendingDataAtTimestamp (ingestFlow ops).data_flow_history T L
      = (ingestFlow ops).pending_data L := by
  have hhist : (ingestFlow ops).data_flow_history = ops.filterMap toFlowEvent := by
    rw [ingestFlow, ingestFrom_history ops initFifo]
    rfl
  have hts : ∀ e ∈ ops.filterMap toFlowEvent, e.timestamp ≤ T := by
    intro e he
    obtain ⟨op, hop, hsome⟩ := List.mem_filterMap.mp he
    have hte : e.timestamp = op.timestamp := by
      rw [toFlowEvent] at hsome
      cases hsrc : op.src with
      | none => rw [hsrc] at hsome; simp at hsome
      | some ps =>
          cases hdst : op.dst with
          | none => rw [hsrc, hdst] at hsome; simp at hsome
          | some pt =>
              rw [hsrc, hdst] at hsome
              simp only [Option.some.injEq] at hsome
              subst hsome
              rfl
    rw [hte]
    exact hT op hop
  rw [hhist, getPendingDataAtTimestamp, replay_filter_inactive T _ _ hts,
    ingestFlow, ingestFrom_pending ops initFifo]
  rfl

/-- C10 witness: the Scenario C pop followed by the cycle-1 push, queried
at `T = 2`, gives the same queue on `scLink` from the replay as from the
incremental map. -/
theorem incremental_refines_replay_witness :
    (∀ op ∈ [scPop, scPush], op.timestamp ≤ 2) ∧
    getPendingDataAtTimestamp (ingestFlow [scPop, scPush]).data_flow_history 2 scLink
      = (ingestFlow [scPop, scPush]).pending_data scLink :=
  ⟨by decide, incremental_refines_replay [scPop, scPush] 2 (by decide) scLink⟩

/-- C9: building the event store and all derived indices twice from the
identical input sequence yields identical results — the by-cycle operation
index, the instruction index, the pending map, the data-flow history, the
replay queries at every cycle, the per-kind/per-cycle event buckets, the
reconstructed per-PE statuses, and the utilization statistics of the two
builds are equal. -/
theorem rebuild_idempotent (rs rs' : List Record) (hr : rs = rs')
    (es es' : List ExportCsv.Event) (he : es = es')
    (hs hs' : List Histogram.Entry) (hh : hs = hs') :
    (parseLog rs).timestamps = (parseLog rs').timestamps ∧
    (parseLog rs).instructions = (parseLog rs').instructions ∧
    (parseLog rs).fifo.pending_data = (parseLog rs').fifo.pending_data ∧
    (parseLog rs).fifo.data_flow_history = (parseLog rs').fifo.data_flow_history ∧
    (∀ ts, getPendingDataAtTimestamp (parseLog rs).fifo.data_flow_history ts
        = getPendingDataAtTimestamp (parseLog rs').fifo.data_flow_history ts) ∧
    (∀ c k, kindAt es c k = kindAt es' c k) ∧
    (∀ c x y, statusOf es c x y = statusOf es' c x y) ∧
    (∀ pe total, utilization hs pe total = utilization hs' pe total) := by
  subst hr; subst he; subst hh
  exact ⟨rfl, rfl, rfl, rfl, fun _ => rfl, fun _ _ => rfl, fun _ _ _ => rfl, fun _ _ => rfl⟩

/-- C9 witness: two builds from one concrete one-line log agree on the
by-cycle index. -/
theorem rebuild_idempotent_witness :
    ([Record.dataflow 0 .Recv "7" (some westDriver0) (some tile00West)]
      = [Record.dataflow 0 .Recv "7" (some westDriver0) (some tile00West)]) ∧
    (parseLog [Record.dataflow 0 .Recv "7" (some westDriver0) (some tile00West)]).timestamps
      = (parseLog [Record.dataflow 0 .Recv "7" (some westDriver0) (some tile00West)]).timestamps :=
  ⟨rfl, (rebuild_idempotent _ _ rfl [] [] rfl [] [] rfl).1⟩

/-- The send loop of `export_core_activity_csv` never changes the status
column. -/
theorem sendFold_status (x y : Int) :
    ∀ (l : List ExportCsv.Event) (r : Row),
      (l.foldl (stepSend x y) r).status = r.status := by
  intro l
  induction l with
  | nil => intro r; rfl
  | cons e rest ih =>
      intro r
      rw [List.foldl_cons, stepSend]
      by_cases hm : e.x = x ∧ e.y = y ∧ e.behavior = "Send" <;> simp [hm, ih]

/-- The receive loop of `export_core_activity_csv` never changes the
status column. -/
theorem recvFold_status (x y : Int) :
    ∀ (l : List ExportCsv.Event) (r : Row),
      (l.foldl (stepRecv x y) r).status = r.status := by
  intro l
  induction l with
  | nil => intro r; rfl
  | cons e rest ih =>
      intro r
      rw [List.foldl_cons, stepRecv]
      by_cases hm : e.x = x ∧ e.y = y ∧ e.behavior = "Receive" <;> simp [hm, ih]

/-- The `InstExec` loop sets the status to `EXEC` exactly when some event
of the bucket matches the PE coordinates. -/
theorem instFold_status (x y : Int) :
    ∀ (l : List ExportCsv.Event) (r : Row),
      (l.foldl (stepInstExec x y) r).status
        = if l.any (matchesPE x y) then Status.EXEC else r.status := by
  intro l
  induction l with
  | nil => intro r; simp
  | cons e rest ih =>
      intro r
      rw [List.foldl_cons, stepInstExec, List.any_cons]
      by_cases hm : e.x = x ∧ e.y = y
      · simp [hm, ih, matchesPE]
      · have hb : matchesPE x y e = false := by
          simp [matchesPE]
          intro h1 h2
          exact hm ⟨h1, h2⟩
        simp [hm, ih, hb]

/-- The backpressure loop sets the status to `BLOCKED` exactly when some
event of the concatenated buckets matches the PE coordinates. -/
theorem bpFold_status (x y : Int) :
    ∀ (l : List ExportCsv.Event) (r : Row),
      (l.foldl (stepBp x y) r).status
        = if l.any (matchesPE x y) then Status.BLOCKED else r.status := by
  intro l
  induction l with
  | nil => intro r; simp
  | cons e rest ih =>
      intro r
      rw [List.foldl_cons, stepBp, List.any_cons]
      by_cases hm : e.x = x ∧ e.y = y
      · simp [hm, ih, matchesPE]
      · have hb : matchesPE x y e = false := by
          simp [matchesPE]
          intro h1 h2
          exact hm ⟨h1, h2⟩
        simp [hm, ih, hb]

/-- `List.any` is invariant under permutation of the list. -/
theorem any_of_perm {α : Type} (p : α → Bool) :
    ∀ {l l' : List α}, l.Perm l' → l.any p = l'.any p := by
  intro l l' h
  induction h with
  | nil => rfl
  | cons a _ ih => simp [ih]
  | swap a b l => cases hp : p b <;> cases hq : p a <;> simp [hp, hq]
  | trans _ _ ih1 ih2 => rw [ih1, ih2]

/-- C2 (amended): in `export_core_activity_csv` the merged status of PE
`(x, y)` at cycle `c` is `BLOCKED` whenever at least one `Backpressure` or
`InstGroup_Blocked` event exists for that PE and cycle, otherwise `EXEC`
whenever at least one `InstExec` event exists, otherwise `IDLE` —
`DataFlow` events alone leave the status `IDLE` — and this result is
identical for every arrival order (permutation) of the event list. -/
theorem status_merge_precedence (es es' : List ExportCsv.Event) (c : Nat)
    (x y : Int) :
    (statusOf es c x y =
      if (kindAt es c "Backpressure" ++ kindAt es c "InstGroup_Blocked").any (matchesPE x y)
      then Status.BLOCKED
      else if (kindAt es c "InstExec").any (matchesPE x y) then Status.EXEC
      else Status.IDLE) ∧
    (es.Perm es' → statusOf es c x y = statusOf es' c x y) := by
  have hchar : ∀ l : List ExportCsv.Event, statusOf l c x y =
      if (kindAt l c "Backpressure" ++ kindAt l c "InstGroup_Blocked").any (matchesPE x y)
      then Status.BLOCKED
      else if (kindAt l c "InstExec").any (matchesPE x y) then Status.EXEC
      else Status.IDLE := by
    intro l
    rw [statusOf, peRow, bpFold_status, recvFold_status, sendFold_status, instFold_status]
    by_cases hbp :
        ((kindAt l c "Backpressure" ++ kindAt l c "InstGroup_Blocked").any (matchesPE x y)) = true
    · simp [hbp]
    · simp only [Bool.not_eq_true] at hbp
      simp [hbp, row0]
  refine ⟨hchar es, fun hperm => ?_⟩
  rw [hchar es, hchar es']
  have hk : ∀ k : String, (kindAt es c k).Perm (kindAt es' c k) :=
    fun k => hperm.filter _
  rw [any_of_perm (matchesPE x y) ((hk "Backpressure").append (hk "InstGroup_Blocked")),
    any_of_perm (matchesPE x y) (hk "InstExec")]

/-- C2 witness: with a Backpressure and an InstExec event for PE(0,0) at
cycle 0 in either arrival order, the status characterization applies and
the merged status is permutation-invariant. -/
theorem status_merge_precedence_witness :
    ([ExportCsv.scnBp, ExportCsv.scnSend].Perm [ExportCsv.scnSend, ExportCsv.scnBp]) ∧
    statusOf [ExportCsv.scnBp, ExportCsv.scnSend] 1 1 0
      = statusOf [ExportCsv.scnSend, ExportCsv.scnBp] 1 1 0 :=
  ⟨List.Perm.swap _ _ _,
    (status_merge_precedence [ExportCsv.scnBp, ExportCsv.scnSend]
        [ExportCsv.scnSend, ExportCsv.scnBp] 1 1 0).2 (List.Perm.swap _ _ _)⟩

/-- C2 counterexample: the claim says a PE with at least one DataFlow
event and no Backpressure event at a cycle is reconstructed as Executing.
For the single DataFlow Send event at cycle 0 on PE(0,0) — with no
Backpressure or InstGroup_Blocked event present — the exporter leaves the
status `IDLE`, not `EXEC`: only `InstExec` events mark a PE as
executing. -/
theorem dataflow_only_cycle_idle :
    statusOf [loneDataFlow] 0 0 0 = Status.IDLE ∧
    loneDataFlow.msg = "DataFlow" ∧ loneDataFlow.time = 0 ∧
    loneDataFlow.x = 0 ∧ loneDataFlow.y = 0 ∧
    (¬ ∃ e ∈ [loneDataFlow], e.msg = "Backpressure" ∨ e.msg = "InstGroup_Blocked") ∧
    Status.IDLE ≠ Status.EXEC := by
  decide

/-- C4 (amended): on the three-event input of Scenario A the CSV exporter
reconstructs `state_of((0,0),0) = IDLE`, `state_of((1,0),0) = IDLE` (the
DataFlow Send/Receive events do not mark a PE as executing in this
exporter) and `state_of((1,0),1) = BLOCKED`. -/
theorem scenario_a_states :
    statusOf scenarioA 0 0 0 = Status.IDLE ∧
    statusOf scenarioA 0 1 0 = Status.IDLE ∧
    statusOf scenarioA 1 1 0 = Status.BLOCKED := by
  decide

/-- C4 counterexample: the claim says `state_of((0,0),0) = Executing` on
Scenario A; the exporter computes `IDLE` for PE(0,0) at cycle 0 although
its DataFlow Send event is present in the input. -/
theorem scenario_a_not_executing :
    statusOf scenarioA 0 0 0 = Status.IDLE ∧
    ExportCsv.scnSend ∈ scenarioA ∧ ExportCsv.scnSend.msg = "DataFlow" ∧
    ExportCsv.scnSend.time = 0 ∧ ExportCsv.scnSend.x = 0 ∧ ExportCsv.scnSend.y = 0 ∧
    Status.IDLE ≠ Status.EXEC := by
  decide

/-- The deduplicated active-cycle count kept by the code equals the
cardinality of the set of distinct cycles holding at least one execution
event for the PE. -/
theorem activeCycles_eq_card (es : List Histogram.Entry) (pe : Int × Int) :
    activeCycles es pe = (distinctActiveCycles es pe).card := by
  rw [activeCycles, execEvents, ← List.card_toFinset]
  congr 1
  ext c
  simp only [distinctActiveCycles, List.mem_toFinset, List.mem_map, List.mem_filter,
    Finset.mem_filter, decide_eq_true_eq]
  constructor
  · rintro ⟨e, ⟨he, hp⟩, rfl⟩
    exact ⟨⟨e, he, rfl⟩, e, he, hp, rfl⟩
  · rintro ⟨_, e, he, hp, rfl⟩
    exact ⟨e, ⟨he, hp⟩, rfl⟩

/-- C6: per-PE utilization equals the number of distinct cycles containing
at least one Execution/DataFlow/Memory event for that PE, divided by the
total simulated cycles, times 100, capped at 100% (and 0 when the total
is 0); in particular a PE that emits a DataFlow Send and a DataFlow Recv
in the same cycle contributes exactly 1 active cycle, never 2. -/
theorem utilization_distinct_cycles (es : List Histogram.Entry) (pe : Int × Int)
    (total : Nat) :
    utilization es pe total
        = min (if 0 < total then ((distinctActiveCycles es pe).card : ℚ) / total * 100 else 0)
            100 ∧
    utilization es pe total ≤ 100 ∧
    (∀ t : Nat,
      activeCycles [⟨t, "DataFlow", "Send", 0, 0⟩, ⟨t, "DataFlow", "Recv", 0, 0⟩] (0, 0) = 1) := by
  refine ⟨?_, min_le_right _ _, ?_⟩
  · rw [utilization, activeCycles_eq_card]
  · intro t
    rw [activeCycles, execEvents]
    have hfil : ([⟨t, "DataFlow", "Send", 0, 0⟩, ⟨t, "DataFlow", "Recv", 0, 0⟩] :
          List Histogram.Entry).filter (fun e => decide (isExecEvent (0, 0) e))
        = [⟨t, "DataFlow", "Send", 0, 0⟩, ⟨t, "DataFlow", "Recv", 0, 0⟩] := by
      simp [isExecEvent]
    rw [hfil]
    simp [List.dedup_cons_of_mem]

/-- C8: for every event list (in any arrival order, including out of cycle
order) and every token id, the token path is sorted non-decreasingly by
cycle, is a permutation of all the hops carrying that token id, and
contains only hops of that token id. -/
theorem token_path_sorted (evs : List TokenEvent) (t : Nat) :
    (tokenPath evs t).Sorted timeLE ∧
    (tokenPath evs t).Perm (tokenEvents evs t) ∧
    (∀ e ∈ tokenPath evs t, e.tokenId = t) := by
  refine ⟨List.sorted_insertionSort timeLE _, List.perm_insertionSort timeLE _, ?_⟩
  intro e he
  have : e ∈ tokenEvents evs t :=
    (List.perm_insertionSort timeLE (tokenEvents evs t)).mem_iff.mp he
  rw [tokenEvents] at this
  simpa using (List.mem_filter.mp this).2
